import Mathlib

/-!
Verification of the voca view-state engine against its natural-language
specification.  Definitions are shallow embeddings of the TypeScript source
(`pages/WordListPage/Provider.tsx`, `utils/words.ts`, `utils/bookmarkIdb.ts`);
spec-side definitions (named `...Sel`, `spec...`, `argmaxFirst`, `matchesOf`)
follow the specification's wording and are compared with the code embeddings.
-/

namespace VocaSpec

/-! ### JS-style substring search
`line.toLowerCase().includes(q)` is substring containment on characters. -/

/-- `charsLead p s` holds when `p` is a leading block of `s` (JS `startsWith`). -/
def charsLead : List Char → List Char → Bool
  | [], _ => true
  | _ :: _, [] => false
  | a :: as, b :: bs => a == b && charsLead as bs

/-- `charsSub p s` holds when `p` occurs contiguously inside `s` (JS `includes`). -/
def charsSub (p : List Char) : List Char → Bool
  | [] => charsLead p []
  | c :: rest => charsLead p (c :: rest) || charsSub p rest

/-- JS `toLowerCase()` on the character sequence. -/
def lowerChars (l : List Char) : List Char := l.map Char.toLower

/-- Drop leading whitespace (one side of JS `trim()`). -/
def dropLeadWs : List Char → List Char
  | [] => []
  | c :: cs => if c.isWhitespace then dropLeadWs cs else c :: cs

/-- JS `trim()`: strip whitespace from both ends. -/
def trimChars (l : List Char) : List Char :=
  (dropLeadWs ((dropLeadWs l).reverse)).reverse

/-- `searchQuery.trim().toLowerCase()` (Provider.tsx line 193), as a character
sequence. -/
def normQuery (s : String) : List Char := lowerChars (trimChars s.toList)

/-- Filter predicate of `viewIndices` (Provider.tsx line 199):
`!q || line.toLowerCase().includes(q)`, with `q` already trimmed+lowercased. -/
def lineMatches (q : List Char) (line : String) : Bool :=
  q.isEmpty || charsSub q (lowerChars line.toList)

/-! ### Line-index projection (Provider.tsx `viewIndices`, lines 192–224) -/

/-- Base pass of `viewIndices`: ascending positions whose line passes the
search filter (Provider.tsx lines 195–200). -/
def baseIndices (rawLines : List String) (searchQuery : String) : List Nat :=
  (List.range rawLines.length).filter
    (fun i => lineMatches (normQuery searchQuery) (rawLines.getD i ""))

/-- One iteration of the first loop of `viewIndices` (lines 209–215):
skip when not in the filtered base set, out of range, or already used;
otherwise push onto `ordered` (first component) and `used` (second). -/
def shuffleStep (baseInt : List Int) (n : Nat) (acc : List Nat × List Nat)
    (idx : Int) : List Nat × List Nat :=
  if idx ∈ baseInt then
    if idx < 0 ∨ (n : Int) ≤ idx then acc
    else if idx.toNat ∈ acc.2 then acc
    else (acc.1 ++ [idx.toNat], acc.2 ++ [idx.toNat])
  else acc

/-- One iteration of the second loop of `viewIndices` (lines 217–221):
append each filtered position not already emitted. -/
def appendStep (acc : List Nat × List Nat) (i : Nat) : List Nat × List Nat :=
  if i ∈ acc.2 then acc else (acc.1 ++ [i], acc.2 ++ [i])

/-- Embedding of `viewIndices` (Provider.tsx lines 192–224).  Shuffle entries
are JS numbers, hence `Int`. -/
def viewIndices (rawLines : List String) (searchQuery : String)
    (shuffleWordIndices : Option (List Int)) : List Nat :=
  let base := baseIndices rawLines searchQuery
  match shuffleWordIndices with
  | none => base
  | some sh =>
    if sh.isEmpty then base
    else
      let st := sh.foldl (shuffleStep (base.map (fun i : Nat => (i : Int))) rawLines.length) ([], [])
      let st2 := base.foldl appendStep st
      st2.1

/-- Spec-side selection of the shuffle-ordered prefix: the shuffle entries, in
shuffle order, that are in-range, pass the active filter (are in `base`) and
are not duplicates of already-emitted entries; other entries are skipped. -/
def shuffleSel (n : Nat) (base : List Nat) : List Nat → List Int → List Nat
  | _, [] => []
  | used, idx :: rest =>
    if 0 ≤ idx ∧ idx < (n : Int) ∧ idx.toNat ∈ base ∧ idx.toNat ∉ used then
      idx.toNat :: shuffleSel n base (idx.toNat :: used) rest
    else shuffleSel n base used rest

/-! ### Pagination primitive (`utils/words.ts` `paginate`, lines 95–115) -/

/-- Resolve one JS `Array.prototype.slice` bound: negative indices count from
the end, then clamp into `[0, len]`. -/
def jsSliceBound (len : Nat) (i : Int) : Nat :=
  if i < 0 then (max ((len : Int) + i) 0).toNat else min i.toNat len

/-- JS `items.slice(start, stop)`. -/
def jsSlice (items : List α) (start stop : Int) : List α :=
  (items.take (jsSliceBound items.length stop)).drop (jsSliceBound items.length start)

structure PageResult (α : Type) where
  totalPages : Nat
  safePageIndex : Int
  pageStart : Int
  pagedItems : List α
deriving Repr, DecidableEq

/-- Embedding of `paginate` (`utils/words.ts` lines 95–115).  `Math.ceil` of a
nonneg ratio is `(len + ps - 1) / ps` for `ps > 0`; note the source clamps the
page index only from above (`Math.min`), never from below. -/
def paginate (items : List α) (pageSize : Nat) (pageIndex : Int) : PageResult α :=
  let totalPages := if items.length = 0 then 0 else (items.length + pageSize - 1) / pageSize
  let safePageIndex : Int := if totalPages = 0 then 0 else min pageIndex ((totalPages : Int) - 1)
  let pageStart : Int := safePageIndex * (pageSize : Int)
  { totalPages := totalPages
    safePageIndex := safePageIndex
    pageStart := pageStart
    pagedItems := jsSlice items pageStart (pageStart + (pageSize : Int)) }

/-! ### One-time bookmark→page reconciliation (Provider.tsx lines 419–447) -/

/-- Embedding of the body of the initial-page effect (Provider.tsx lines
424–446), as a pure function of the view length, the loaded bookmark word
index (`none` = missing) and the page size.  The clamp of the word index is
done with sequential `if`s exactly as in the source; after the first branch
the value is nonnegative, so the result lives in `Nat`. -/
def initialPageIndex (viewLen : Nat) (bookmarkWordIndex : Option Int) (pageSize : Nat) : Nat :=
  if viewLen = 0 then 0
  else
    match bookmarkWordIndex with
    | none => 0
    | some wi =>
      let idx1 : Int := if wi < 0 then 0 else wi
      let idx : Nat := if (viewLen : Int) ≤ idx1 then viewLen - 1 else idx1.toNat
      let totalPages : Nat := max 1 ((viewLen + pageSize - 1) / pageSize)
      let np : Nat := idx / pageSize
      if totalPages ≤ np then totalPages - 1 else np

/-- Spec-side formula (§4.4 / C5): clamp the bookmark word index into
`[0, viewLen-1]`, divide by the page size, clamp into `[0, totalPages-1]`. -/
def specReconcilePage (viewLen : Nat) (bookmarkWordIndex : Option Int) (pageSize : Nat) : Nat :=
  if viewLen = 0 then 0
  else
    match bookmarkWordIndex with
    | none => 0
    | some wi =>
      let clamped : Nat := min (max wi 0).toNat (viewLen - 1)
      let totalPages : Nat := (viewLen + pageSize - 1) / pageSize
      min (clamped / pageSize) (totalPages - 1)

/-! ### Reconciliation flags (C6): guards of the initial-page effect
(Provider.tsx lines 420–422) and the flag resets at the start of a bookmark
load cycle (lines 285–286). -/

structure RecFlags where
  loading : Bool
  bookmarksLoaded : Bool
  initialPageApplied : Bool
  pageIndex : Nat
deriving Repr, DecidableEq

/-- One run of the initial-page effect: the three early-return guards of
Provider.tsx lines 420–422, then the derivation (lines 424–446). -/
def reconcileTick (st : RecFlags) (viewLen : Nat) (bookmarkWordIndex : Option Int)
    (pageSize : Nat) : RecFlags :=
  if st.loading then st
  else if !st.bookmarksLoaded then st
  else if st.initialPageApplied then st
  else
    { st with
      pageIndex := initialPageIndex viewLen bookmarkWordIndex pageSize
      initialPageApplied := true }

/-- Start of a bookmark load cycle (Provider.tsx lines 285–286): triggered by
a change of resource path, identity or load state; resets both flags. -/
def bookmarkCycleStart (st : RecFlags) : RecFlags :=
  { st with bookmarksLoaded := false, initialPageApplied := false }

/-! ### Identity-transition save guard (`savePageBookmarkByIndex`,
Provider.tsx lines 452–472) -/

/-- JS truthiness of a `string | null | undefined` value. -/
def jsTruthyStr : Option String → Bool
  | none => false
  | some s => !s.isEmpty

/-- The `prevAuthUidRef` cell: `none` = `undefined` (no identity observed
yet); `some u` = the identity recorded on a previous tick (`u = none` is a
recorded `null`, i.e. guest). -/
structure SaveGuard where
  prevAuthUid : Option (Option String)
deriving Repr, DecidableEq

/-- Ambient controller values read by `savePageBookmarkByIndex`. -/
structure SaveCtx where
  bookmarksLoaded : Bool
  initialPageApplied : Bool
  uid : Option String
  wordbookPath : Option String
  currentUserUid : Option String
  viewLines : List String
deriving Repr, DecidableEq

/-- Embedding of `savePageBookmarkByIndex` (Provider.tsx lines 452–472).
Returns the updated `prevAuthUidRef` and `some wordIndex` when the bookmark
save is performed (`none` when suppressed or guarded). -/
def savePageBookmarkByIndex (g : SaveGuard) (ctx : SaveCtx)
    (pageIndexToSave : Int) (pageSizeToSave : Nat) : SaveGuard × Option Int :=
  if !ctx.bookmarksLoaded || !ctx.initialPageApplied then (g, none)
  else if !jsTruthyStr ctx.uid || !jsTruthyStr ctx.wordbookPath then (g, none)
  else
    match g.prevAuthUid with
    | none => (⟨some ctx.currentUserUid⟩, none)
    | some prev =>
      if prev ≠ ctx.currentUserUid then (⟨some ctx.currentUserUid⟩, none)
      else if ctx.viewLines.length = 0 then (g, none)
      else
        (g, some ((paginate ctx.viewLines pageSizeToSave pageIndexToSave).safePageIndex
                    * (pageSizeToSave : Int)))

/-! ### Persisted bookmark records and `stripUndefinedDeep` (C8)
`saveBookmark` (Provider.tsx lines 231–246) and `stripUndefinedDeep`
(`utils/bookmarkIdb.ts` lines 22–33). -/

/-- A JS value slot that may hold `undefined`, `null` or a proper value. -/
inductive JsVal (α : Type) where
  | jundef
  | jnull
  | jval (a : α)
deriving Repr, DecidableEq

/-- The `next : Partial<Bookmark>` argument of `saveBookmark`: each optional
field may be absent (`jundef`), `null`, or a value. -/
structure NextBookmark where
  wordIndex : JsVal Int
  searchQuery : JsVal String
  shuffleWordIndices : JsVal (List Int)
deriving Repr, DecidableEq

/-- The object literal built inside `saveBookmark` before
`stripUndefinedDeep` is applied. -/
structure RawSaveBookmark where
  wordbookPath : String
  wordIndex : Int
  updatedAt : Int
  searchQuery : JsVal String
  shuffleWordIndices : JsVal (List Int)
deriving Repr, DecidableEq

/-- The record as persisted: `stripUndefinedDeep` removes keys whose value is
`undefined`, so a stored optional field is `none` (key absent) or
`some jnull` / `some (jval _)`. -/
structure StoredBookmark where
  wordbookPath : String
  wordIndex : Int
  updatedAt : Int
  searchQuery : Option (JsVal String)
  shuffleWordIndices : Option (JsVal (List Int))
deriving Repr, DecidableEq

/-- Field action of `stripUndefinedDeep`: drop the key iff the value is
`undefined`. -/
def stripField : JsVal α → Option (JsVal α)
  | .jundef => none
  | .jnull => some .jnull
  | .jval a => some (.jval a)

/-- Whether a stored field still holds the `undefined` sentinel. -/
def isUndefField : Option (JsVal α) → Bool
  | some .jundef => true
  | _ => false

/-- The object literal of `saveBookmark` (Provider.tsx lines 237–246), given
the current in-memory `searchQuery` and `shuffleWordIndices` state.
`next.shuffleWordIndices ?? undefined` turns a `null` argument into
`undefined`; the state fallback `shuffleWordIndices ?? undefined` does the
same for absent state. -/
def mkSaveBookmark (wordbookPath : String) (now : Int) (next : NextBookmark)
    (stateSearchQuery : String) (stateShuffle : Option (List Int)) : RawSaveBookmark :=
  { wordbookPath := wordbookPath
    wordIndex := match next.wordIndex with | .jval n => n | _ => 0
    updatedAt := now
    searchQuery :=
      match next.searchQuery with
      | .jundef => .jval stateSearchQuery
      | v => v
    shuffleWordIndices :=
      match next.shuffleWordIndices with
      | .jundef => (match stateShuffle with | some l => .jval l | none => .jundef)
      | .jnull => .jundef
      | .jval l => .jval l }

/-- `stripUndefinedDeep` applied to the bookmark literal. -/
def stripSaveBookmark (b : RawSaveBookmark) : StoredBookmark :=
  { wordbookPath := b.wordbookPath
    wordIndex := b.wordIndex
    updatedAt := b.updatedAt
    searchQuery := stripField b.searchQuery
    shuffleWordIndices := stripField b.shuffleWordIndices }

/-! ### Authenticated bookmark load, RTDB branch (Provider.tsx lines 327–407) -/

/-- A bookmark record as read back from the remote store: every field may be
missing. -/
structure RtdbBookmark where
  wordbookPath : String
  wordIndex : Option Int
  updatedAt : Option Int
  searchQuery : Option String
  shuffleWordIndices : Option (List Int)
deriving Repr, DecidableEq

/-- `data.updatedAt ?? 0`. -/
def bmVal (r : RtdbBookmark) : Int := r.updatedAt.getD 0

/-- One iteration of the selection loop of the RTDB branch (Provider.tsx
lines 362–367): skip null records and records for a different
`wordbookPath`; replace the best only on strictly greater `updatedAt`
(missing treated as 0). -/
def pickStep (path : String) (best : Option (String × RtdbBookmark))
    (kv : String × Option RtdbBookmark) : Option (String × RtdbBookmark) :=
  match kv.2 with
  | none => best
  | some data =>
    if data.wordbookPath ≠ path then best
    else
      match best with
      | none => some (kv.1, data)
      | some b => if bmVal b.2 < bmVal data then some (kv.1, data) else best

/-- The selection loop of the RTDB branch (Provider.tsx lines 360–367). -/
def pickBest (path : String) (entries : List (String × Option RtdbBookmark)) :
    Option (String × RtdbBookmark) :=
  entries.foldl (pickStep path) none

/-- Spec-side: the snapshot records belonging to the identity, filtered by
`resourcePath` equality, in iteration order. -/
def matchesOf (path : String) (entries : List (String × Option RtdbBookmark)) :
    List (String × RtdbBookmark) :=
  entries.filterMap
    (fun kv =>
      match kv.2 with
      | none => none
      | some data => if data.wordbookPath = path then some (kv.1, data) else none)

/-- Spec-side: the record with the greatest `updatedAt`, keeping the first in
iteration order among equal timestamps. -/
def argmaxFirst : List (String × RtdbBookmark) → Option (String × RtdbBookmark)
  | [] => none
  | kv :: rest =>
    match argmaxFirst rest with
    | none => some kv
    | some b => if bmVal kv.2 < bmVal b.2 then some b else some kv

/-- Left-biased better-of-two on optional candidates: keep the second only on
strictly greater `updatedAt`.  One accumulator update of the selection loop. -/
def mergeBest : Option (String × RtdbBookmark) → Option (String × RtdbBookmark) →
    Option (String × RtdbBookmark)
  | none, o => o
  | some b, none => some b
  | some b, some c => if bmVal b.2 < bmVal c.2 then some c else some b

/-- Default record eagerly persisted when no bookmark matches (Provider.tsx
lines 370–376): `shuffleWordIndices: undefined` is stripped, so the field is
absent from the stored record. -/
def defaultStoredBookmark (path : String) (now : Int) : StoredBookmark :=
  stripSaveBookmark
    { wordbookPath := path, wordIndex := 0, updatedAt := now
      searchQuery := .jval "", shuffleWordIndices := .jundef }

/-- Outcome of the RTDB load branch: the state setters applied, and the newly
created record (with its freshly allocated key) when one is persisted. -/
structure RtdbLoadResult where
  bookmarkId : Option String
  bookmarkWordIndex : Int
  searchQuery : String
  shuffleWordIndices : Option (List Int)
  createdRecord : Option (String × StoredBookmark)
deriving Repr, DecidableEq

/-- Embedding of the RTDB branch of the bookmark-load effect (Provider.tsx
lines 327–407).  `entries` is the snapshot in iteration order (the empty
snapshot and the no-match scan behave identically: both create and persist a
default record under a fresh key `newKey`). -/
def rtdbLoadBranch (path : String) (entries : List (String × Option RtdbBookmark))
    (newKey : String) (now : Int) : RtdbLoadResult :=
  match pickBest path entries with
  | none =>
    { bookmarkId := some newKey
      bookmarkWordIndex := 0
      searchQuery := ""
      shuffleWordIndices := none
      createdRecord := some (newKey, defaultStoredBookmark path now) }
  | some best =>
    { bookmarkId := some best.1
      bookmarkWordIndex := best.2.wordIndex.getD 0
      searchQuery := best.2.searchQuery.getD ""
      shuffleWordIndices := best.2.shuffleWordIndices
      createdRecord := none }

/-! ### Guest-only IndexedDB bookmark store (`utils/bookmarkIdb.ts`) -/

/-- `SCHEMA_TAG` (`utils/bookmarkIdb.ts` line 11). -/
def schemaTagConst : String := "bookmark-v1.0-search+shuffle-order"

/-- Error message thrown by `assertGuestOnly` (lines 39–44). -/
def guestGuardMsg : String :=
  "[bookmarkStore] IndexedDB is guest-only. Refuse operation for logged-in user."

/-- State of the local database: the `bookmarks` object store (keyed by
`wordbookPath`) and the stored schema tag of the `meta` store. -/
structure IdbState where
  bookmarks : List (String × StoredBookmark)
  schemaTag : Option String
deriving Repr, DecidableEq

/-- `ensureSchemaTag` (lines 81–101): when the stored tag differs from
`SCHEMA_TAG`, clear the bookmarks store and write the current tag. -/
def ensureSchemaTag (st : IdbState) : IdbState :=
  if st.schemaTag = some schemaTagConst then st
  else { bookmarks := [], schemaTag := some schemaTagConst }

/-- IDB `store.put` with `keyPath: 'wordbookPath'`: replace the record with
the same key, or append. -/
def putRecord (l : List (String × StoredBookmark)) (k : String) (v : StoredBookmark) :
    List (String × StoredBookmark) :=
  if l.any (fun kv => kv.1 = k) then l.map (fun kv => if kv.1 = k then (k, v) else kv)
  else l ++ [(k, v)]

/-- `idbGetBookmark` (lines 104–125): guest guard, schema-tag check, then a
key lookup.  The error case happens before the database is opened, so no
state is produced. -/
def idbGetBookmark (st : IdbState) (wordbookPath : String) (currentUserUid : Option String) :
    Except String (IdbState × Option StoredBookmark) :=
  if jsTruthyStr currentUserUid then .error guestGuardMsg
  else
    let st := ensureSchemaTag st
    .ok (st, (st.bookmarks.find? (fun kv => kv.1 = wordbookPath)).map (fun kv => kv.2))

/-- `idbSetBookmark` (lines 127–144): guest guard, schema-tag check,
`stripUndefinedDeep`, then `store.put`. -/
def idbSetBookmark (st : IdbState) (bookmark : RawSaveBookmark)
    (currentUserUid : Option String) : Except String IdbState :=
  if jsTruthyStr currentUserUid then .error guestGuardMsg
  else
    let st := ensureSchemaTag st
    let safe := stripSaveBookmark bookmark
    .ok { st with bookmarks := putRecord st.bookmarks safe.wordbookPath safe }

/-- `idbDeleteBookmark` (lines 146–159). -/
def idbDeleteBookmark (st : IdbState) (wordbookPath : String)
    (currentUserUid : Option String) : Except String IdbState :=
  if jsTruthyStr currentUserUid then .error guestGuardMsg
  else
    let st := ensureSchemaTag st
    .ok { st with bookmarks := st.bookmarks.filter (fun kv => kv.1 ≠ wordbookPath) }

/-- `idbClearAllBookmarks` (lines 161–174). -/
def idbClearAllBookmarks (st : IdbState) (currentUserUid : Option String) :
    Except String IdbState :=
  if jsTruthyStr currentUserUid then .error guestGuardMsg
  else
    let st := ensureSchemaTag st
    .ok { st with bookmarks := [] }

/-! ### Asynchronous load lifecycle (C4)
The text-fetch effect (Provider.tsx lines 150–185) applies its result with no
staleness check; the bookmark-load effect (lines 272–414) captures a
`cancelled` flag at request start (modelled as a generation counter bumped on
every effect re-run) and checks it before applying results. -/

structure AsyncCtrl where
  path : String
  text : String
  loading : Bool
  bookmarkGen : Nat
  searchQuery : String
deriving Repr, DecidableEq

inductive AsyncEv where
  /-- Resource-path change: both effects re-run; the text effect calls
  `setLoading(true)` and starts a new fetch; the bookmark effect's cleanup
  sets the previous run's `cancelled` flag (generation bump). -/
  | navigate (p : String)
  /-- A text fetch started for `reqPath` resolves with `payload`: the source
  applies `setText(payload)`/`setLoading(false)` unconditionally — there is no
  cancelled flag in the fetchText effect. -/
  | textResolved (reqPath : String) (payload : String)
  /-- A bookmark load started in generation `gen` resolves: the source checks
  `if (cancelled) return;` before every state application. -/
  | bookmarkResolved (gen : Nat) (searchQuery : String)
deriving Repr, DecidableEq

def asyncStep (st : AsyncCtrl) : AsyncEv → AsyncCtrl
  | .navigate p => { st with path := p, loading := true, bookmarkGen := st.bookmarkGen + 1 }
  | .textResolved _ payload => { st with text := payload, loading := false }
  | .bookmarkResolved g sq => if g = st.bookmarkGen then { st with searchQuery := sq } else st

def runTrace (st : AsyncCtrl) (evs : List AsyncEv) : AsyncCtrl :=
  evs.foldl asyncStep st

/-! ## Lemmas: substring search -/

theorem charsLead_iff (p : List Char) : ∀ s : List Char,
    charsLead p s = true ↔ ∃ r, s = p ++ r := by
  induction p with
  | nil => intro s; simp [charsLead]
  | cons a as ih =>
    intro s
    cases s with
    | nil => simp [charsLead]
    | cons b bs =>
      simp only [charsLead, Bool.and_eq_true, beq_iff_eq, ih, List.cons_append]
      constructor
      · rintro ⟨rfl, r, rfl⟩
        exact ⟨r, rfl⟩
      · rintro ⟨r, h⟩
        rw [List.cons.injEq] at h
        exact ⟨h.1.symm, r, h.2⟩

theorem charsSub_iff (p : List Char) : ∀ s : List Char,
    charsSub p s = true ↔ ∃ l r, s = l ++ p ++ r := by
  intro s
  induction s with
  | nil =>
    simp only [charsSub, charsLead_iff]
    constructor
    · rintro ⟨r, h⟩
      exact ⟨[], r, by simpa using h⟩
    · rintro ⟨l, r, h⟩
      rw [eq_comm, List.append_eq_nil, List.append_eq_nil] at h
      exact ⟨[], by simp [h.1.2, h.2]⟩
  | cons c cs ih =>
    simp only [charsSub, Bool.or_eq_true, charsLead_iff, ih]
    constructor
    · rintro (⟨r, h⟩ | ⟨l, r, h⟩)
      · exact ⟨[], r, by simpa using h⟩
      · exact ⟨c :: l, r, by simp [h]⟩
    · rintro ⟨l, r, h⟩
      cases l with
      | nil => exact Or.inl ⟨r, by simpa using h⟩
      | cons d l' =>
        rw [List.cons_append, List.cons_append, List.cons.injEq] at h
        exact Or.inr ⟨l', r, h.2⟩

/-! ## Lemmas: the filtered base pass -/

theorem mem_baseIndices (rawLines : List String) (q : String) (i : Nat) :
    i ∈ baseIndices rawLines q ↔
      i < rawLines.length ∧ lineMatches (normQuery q) (rawLines.getD i "") = true := by
  unfold baseIndices
  rw [List.mem_filter, List.mem_range]

theorem baseIndices_lt (rawLines : List String) (q : String) :
    ∀ i ∈ baseIndices rawLines q, i < rawLines.length :=
  fun i hi => ((mem_baseIndices rawLines q i).mp hi).1

theorem baseIndices_nodup (rawLines : List String) (q : String) :
    (baseIndices rawLines q).Nodup :=
  (List.nodup_range _).filter _

theorem baseIndices_empty_query (rawLines : List String) (q : String)
    (h : (normQuery q).isEmpty = true) :
    baseIndices rawLines q = List.range rawLines.length := by
  unfold baseIndices
  rw [List.filter_eq_self]
  intro i _
  unfold lineMatches
  rw [h, Bool.true_or]

/-! ## Lemmas: the shuffle pass -/

theorem shuffleSel_congr (n : Nat) (base : List Nat) :
    ∀ (sh : List Int) (u₁ u₂ : List Nat), (∀ x, x ∈ u₁ ↔ x ∈ u₂) →
      shuffleSel n base u₁ sh = shuffleSel n base u₂ sh := by
  intro sh
  induction sh with
  | nil => intro u₁ u₂ _; rfl
  | cons idx rest ih =>
    intro u₁ u₂ h
    simp only [shuffleSel]
    by_cases hc : 0 ≤ idx ∧ idx < (n : Int) ∧ idx.toNat ∈ base ∧ idx.toNat ∉ u₁
    · rw [if_pos hc, if_pos ⟨hc.1, hc.2.1, hc.2.2.1, fun hx => hc.2.2.2 ((h _).mpr hx)⟩]
      exact congrArg _ (ih _ _ (fun x => by simp only [List.mem_cons, h x]))
    · rw [if_neg hc, if_neg (fun hc' => hc ⟨hc'.1, hc'.2.1, hc'.2.2.1,
        fun hx => hc'.2.2.2 ((h _).mp hx)⟩)]
      exact ih _ _ h

theorem shuffleSel_mem (n : Nat) (base : List Nat) :
    ∀ (sh : List Int) (used : List Nat) (x : Nat),
      x ∈ shuffleSel n base used sh → x ∈ base ∧ x ∉ used := by
  intro sh
  induction sh with
  | nil => intro used x hx; exact absurd hx (List.not_mem_nil x)
  | cons idx rest ih =>
    intro used x hx
    simp only [shuffleSel] at hx
    split at hx
    · next h =>
      rcases List.mem_cons.mp hx with rfl | hx'
      · exact ⟨h.2.2.1, h.2.2.2⟩
      · have h' := ih _ _ hx'
        exact ⟨h'.1, fun hu => h'.2 (List.mem_cons_of_mem _ hu)⟩
    · exact ih _ _ hx

theorem shuffleSel_nodup (n : Nat) (base : List Nat) :
    ∀ (sh : List Int) (used : List Nat), (shuffleSel n base used sh).Nodup := by
  intro sh
  induction sh with
  | nil => intro used; exact List.nodup_nil
  | cons idx rest ih =>
    intro used
    simp only [shuffleSel]
    split
    · exact List.nodup_cons.mpr
        ⟨fun hmem => (shuffleSel_mem n base rest _ _ hmem).2 (List.mem_cons_self _ _), ih _⟩
    · exact ih _

theorem shuffleFold_eq (base : List Nat) (n : Nat) (hb : ∀ i ∈ base, i < n) :
    ∀ (sh : List Int) (l u : List Nat),
      sh.foldl (shuffleStep (base.map (fun i : Nat => (i : Int))) n) (l, u)
        = (l ++ shuffleSel n base u sh, u ++ shuffleSel n base u sh) := by
  intro sh
  induction sh with
  | nil => intro l u; simp [shuffleSel]
  | cons idx rest ih =>
    intro l u
    rw [List.foldl_cons]
    by_cases hS : 0 ≤ idx ∧ idx < (n : Int) ∧ idx.toNat ∈ base ∧ idx.toNat ∉ u
    · have hstep : shuffleStep (base.map (fun i : Nat => (i : Int))) n (l, u) idx
          = (l ++ [idx.toNat], u ++ [idx.toNat]) := by
        unfold shuffleStep
        rw [if_pos, if_neg, if_neg]
        · exact hS.2.2.2
        · exact fun h => h.elim (fun h1 => absurd hS.1 (not_le.mpr h1)) (fun h2 => absurd hS.2.1 (not_lt.mpr h2))
        · exact List.mem_map.mpr ⟨idx.toNat, hS.2.2.1, Int.toNat_of_nonneg hS.1⟩
      rw [hstep, ih]
      have hsel : shuffleSel n base (u ++ [idx.toNat]) rest
          = shuffleSel n base (idx.toNat :: u) rest :=
        shuffleSel_congr n base rest _ _ (fun x => by
          simp only [List.mem_append, List.mem_singleton, List.mem_cons]
          tauto)
      rw [hsel]
      simp only [shuffleSel, if_pos hS]
      simp [List.append_assoc]
    · have hstep : shuffleStep (base.map (fun i : Nat => (i : Int))) n (l, u) idx = (l, u) := by
        unfold shuffleStep
        by_cases hmem : idx ∈ base.map (fun i : Nat => (i : Int))
        · obtain ⟨j, hj, hji⟩ := List.mem_map.mp hmem
          have h0 : 0 ≤ idx := hji ▸ Int.ofNat_nonneg j
          have htn : idx.toNat = j := by rw [← hji]; exact Int.toNat_ofNat j
          have hlt : idx < (n : Int) := by
            rw [← hji]; exact_mod_cast hb j hj
          have hu : idx.toNat ∈ u := by
            by_contra hnu
            exact hS ⟨h0, hlt, htn ▸ hj, hnu⟩
          rw [if_pos hmem, if_neg, if_pos hu]
          exact fun h => h.elim (fun h1 => absurd h0 (not_le.mpr h1)) (fun h2 => absurd hlt (not_lt.mpr h2))
        · rw [if_neg hmem]
      rw [hstep, ih]
      simp only [shuffleSel, if_neg hS]

/-! ## Lemmas: the natural-order append pass -/

theorem appendFold_eq : ∀ (base : List Nat), base.Nodup → ∀ (l u : List Nat),
    base.foldl appendStep (l, u)
      = (l ++ base.filter (fun i => i ∉ u), u ++ base.filter (fun i => i ∉ u)) := by
  intro base
  induction base with
  | nil => intro _ l u; simp
  | cons i rest ih =>
    intro hnd l u
    obtain ⟨hni, hndr⟩ := List.nodup_cons.mp hnd
    rw [List.foldl_cons]
    by_cases hu : i ∈ u
    · have hstep : appendStep (l, u) i = (l, u) := by unfold appendStep; rw [if_pos hu]
      rw [hstep, ih hndr]
      simp [List.filter_cons, hu]
    · have hstep : appendStep (l, u) i = (l ++ [i], u ++ [i]) := by
        unfold appendStep; rw [if_neg hu]
      rw [hstep, ih hndr]
      have hfc : rest.filter (fun x => decide (x ∉ u ++ [i]))
          = rest.filter (fun x => decide (x ∉ u)) := by
        refine List.filter_congr (fun x hx => ?_)
        have hxi : x ≠ i := fun h => hni (h ▸ hx)
        simp [List.mem_append, hxi]
      simp only [hfc, List.filter_cons, hu]
      simp [List.append_assoc]

/-! ## Lemmas: structure of `viewIndices` -/

theorem viewIndices_none (rawLines : List String) (q : String) :
    viewIndices rawLines q none = baseIndices rawLines q := rfl

theorem viewIndices_shuffle_eq (rawLines : List String) (q : String) (sh : List Int)
    (hsh : sh ≠ []) :
    viewIndices rawLines q (some sh)
      = shuffleSel rawLines.length (baseIndices rawLines q) [] sh
        ++ (baseIndices rawLines q).filter
             (fun i => i ∉ shuffleSel rawLines.length (baseIndices rawLines q) [] sh) := by
  unfold viewIndices
  simp only [List.isEmpty_eq_true]
  rw [if_neg hsh,
    shuffleFold_eq (baseIndices rawLines q) rawLines.length (baseIndices_lt rawLines q) sh [] [],
    List.nil_append,
    appendFold_eq (baseIndices rawLines q) (baseIndices_nodup rawLines q)]

theorem mem_viewIndices (rawLines : List String) (q : String)
    (osh : Option (List Int)) (i : Nat) :
    i ∈ viewIndices rawLines q osh ↔ i ∈ baseIndices rawLines q := by
  match osh with
  | none => exact Iff.rfl
  | some sh =>
    by_cases hsh : sh = []
    · subst hsh
      unfold viewIndices
      simp
    · rw [viewIndices_shuffle_eq rawLines q sh hsh, List.mem_append, List.mem_filter]
      constructor
      · rintro (h | h)
        · exact (shuffleSel_mem _ _ _ _ _ h).1
        · exact h.1
      · intro hb
        by_cases hp : i ∈ shuffleSel rawLines.length (baseIndices rawLines q) [] sh
        · exact Or.inl hp
        · exact Or.inr ⟨hb, by simpa using hp⟩

theorem viewIndices_nodup (rawLines : List String) (q : String) (osh : Option (List Int)) :
    (viewIndices rawLines q osh).Nodup := by
  match osh with
  | none => exact baseIndices_nodup rawLines q
  | some sh =>
    by_cases hsh : sh = []
    · subst hsh
      unfold viewIndices
      simpa using baseIndices_nodup rawLines q
    · rw [viewIndices_shuffle_eq rawLines q sh hsh]
      rw [List.nodup_append]
      refine ⟨shuffleSel_nodup _ _ _ _, (baseIndices_nodup rawLines q).filter _, ?_⟩
      intro x hx hx'
      have := (List.mem_filter.mp hx').2
      simp only [decide_eq_true_eq] at this
      exact this hx

theorem viewIndices_lt (rawLines : List String) (q : String) (osh : Option (List Int)) :
    ∀ i ∈ viewIndices rawLines q osh, i < rawLines.length :=
  fun i hi => baseIndices_lt rawLines q i ((mem_viewIndices rawLines q osh i).mp hi)

/-! ## Lemmas: append stability of the shuffle pass -/

theorem shuffleSel_perm_range (m : Nat) :
    ∀ (sh : List Nat) (used : List Nat), sh.Nodup → (∀ j ∈ sh, j < m ∧ j ∉ used) →
      shuffleSel m (List.range m) used (sh.map (fun i : Nat => (i : Int))) = sh := by
  intro sh
  induction sh with
  | nil => intro used _ _; rfl
  | cons i rest ih =>
    intro used hnd h
    obtain ⟨hi, hrest⟩ := List.nodup_cons.mp hnd
    have him := h i (List.mem_cons_self _ _)
    simp only [List.map_cons, shuffleSel, Int.toNat_ofNat]
    rw [if_pos ⟨Int.ofNat_nonneg i, by exact_mod_cast him.1, List.mem_range.mpr him.1, him.2⟩]
    rw [ih (i :: used) hrest]
    intro j hj
    refine ⟨(h j (List.mem_cons_of_mem _ hj)).1, ?_⟩
    intro hju
    rcases List.mem_cons.mp hju with rfl | hju'
    · exact hi hj
    · exact (h j (List.mem_cons_of_mem _ hj)).2 hju'

theorem range_filter_ge (n : Nat) : ∀ m : Nat,
    (List.range m).filter (fun i => decide (n ≤ i)) = List.range' n (m - n) := by
  intro m
  induction m with
  | zero => simp
  | succ m ih =>
    rw [List.range_succ, List.filter_append, ih]
    by_cases h : n ≤ m
    · have h1 : m + 1 - n = (m - n) + 1 := by omega
      have h2 : n + 1 * (m - n) = m := by omega
      simp only [List.filter_cons, List.filter_nil, decide_eq_true (by exact h : n ≤ m)]
      rw [h1, List.range'_concat, h2]
      simp
    · have h1 : m + 1 - n = 0 := by omega
      have h2 : m - n = 0 := by omega
      simp only [List.filter_cons, List.filter_nil, h1, h2]
      rw [decide_eq_false h]
      simp

theorem viewIndices_append_stable (rawLines : List String) (n : Nat) (shuffled : List Nat)
    (hperm : shuffled.Perm (List.range n)) (hle : n ≤ rawLines.length) :
    viewIndices rawLines "" (some (shuffled.map (fun i : Nat => (i : Int))))
      = shuffled ++ List.range' n (rawLines.length - n) := by
  have hq : (normQuery "").isEmpty = true := rfl
  have hbase : baseIndices rawLines "" = List.range rawLines.length :=
    baseIndices_empty_query rawLines "" hq
  have hmemsh : ∀ j, j ∈ shuffled ↔ j < n := fun j => by
    rw [hperm.mem_iff, List.mem_range]
  have hnd : shuffled.Nodup := hperm.nodup_iff.mpr (List.nodup_range n)
  by_cases hnil : shuffled = []
  · subst hnil
    have hn0 : n = 0 := by
      have := hperm.length_eq
      simp at this
      omega
    subst hn0
    simp only [List.map_nil, Nat.sub_zero]
    unfold viewIndices
    simp only [List.isEmpty_nil, if_true]
    rw [hbase, List.range_eq_range']
    rfl
  · have hmapnil : shuffled.map (fun i : Nat => (i : Int)) ≠ [] := by
      simpa using hnil
    rw [viewIndices_shuffle_eq rawLines "" _ hmapnil, hbase]
    have hsel : shuffleSel rawLines.length (List.range rawLines.length) []
        (shuffled.map (fun i : Nat => (i : Int))) = shuffled :=
      shuffleSel_perm_range rawLines.length shuffled [] hnd
        (fun j hj => ⟨lt_of_lt_of_le ((hmemsh j).mp hj) hle, List.not_mem_nil j⟩)
    rw [hsel]
    have hfc : (List.range rawLines.length).filter (fun i => decide (i ∉ shuffled))
        = (List.range rawLines.length).filter (fun i => decide (n ≤ i)) :=
      List.filter_congr (fun x _ =>
        decide_eq_decide.mpr ((not_congr (hmemsh x)).trans not_lt))
    rw [hfc, range_filter_ge]

/-- Claim C1: with a non-null, non-empty shuffle sequence active, the computed
view order is the shuffle entries, in shuffle order, that are in-range, pass
the active filter and are not duplicates of already-emitted entries (other
entries silently skipped), followed by the remaining filtered positions in
ascending natural order; in particular a shuffle that is a permutation of the
first `n` line positions, with further lines appended afterwards, yields the
shuffled positions followed by the new positions in natural order. -/
theorem viewOrder_shuffle_structure :
    (∀ (rawLines : List String) (q : String) (sh : List Int), sh ≠ [] →
        viewIndices rawLines q (some sh)
          = shuffleSel rawLines.length (baseIndices rawLines q) [] sh
            ++ (baseIndices rawLines q).filter
                 (fun i => i ∉ shuffleSel rawLines.length (baseIndices rawLines q) [] sh))
    ∧ (∀ (rawLines : List String) (n : Nat) (shuffled : List Nat),
        shuffled.Perm (List.range n) → n ≤ rawLines.length →
        viewIndices rawLines "" (some (shuffled.map (fun i : Nat => (i : Int))))
          = shuffled ++ List.range' n (rawLines.length - n)) :=
  ⟨viewIndices_shuffle_eq, viewIndices_append_stable⟩

/-- Witness for C1 at concrete inputs (the spec's shuffle and append-stability
test vectors). -/
theorem viewOrder_shuffle_structure_witness :
    (([2, 0, 3, 1] : List Int) ≠ []
      ∧ viewIndices ["a", "b", "c", "d"] "" (some [2, 0, 3, 1])
          = shuffleSel (["a", "b", "c", "d"] : List String).length
              (baseIndices ["a", "b", "c", "d"] "") [] [2, 0, 3, 1]
            ++ (baseIndices ["a", "b", "c", "d"] "").filter
                 (fun i => i ∉ shuffleSel (["a", "b", "c", "d"] : List String).length
                     (baseIndices ["a", "b", "c", "d"] "") [] [2, 0, 3, 1]))
    ∧ (([1, 2, 0] : List Nat).Perm (List.range 3)
      ∧ 3 ≤ (["a", "b", "c", "d"] : List String).length
      ∧ viewIndices ["a", "b", "c", "d"] ""
            (some (([1, 2, 0] : List Nat).map (fun i : Nat => (i : Int))))
          = [1, 2, 0] ++ List.range' 3 ((["a", "b", "c", "d"] : List String).length - 3)) :=
  ⟨⟨by decide, viewOrder_shuffle_structure.1 ["a", "b", "c", "d"] "" [2, 0, 3, 1] (by decide)⟩,
   by decide, by decide,
   viewOrder_shuffle_structure.2 ["a", "b", "c", "d"] 3 [1, 2, 0] (by decide) (by decide)⟩

/-- Claim C2: the projection is a deterministic pure function; its result is
duplicate-free and in-range; with a non-empty normalized query, membership is
exactly case-insensitive substring containment in the raw line; with an empty
query and no shuffle it is the identity order. -/
theorem viewOrder_projection_sound :
    (∀ (r₁ r₂ : List String) (q₁ q₂ : String) (s₁ s₂ : Option (List Int)),
        r₁ = r₂ → q₁ = q₂ → s₁ = s₂ → viewIndices r₁ q₁ s₁ = viewIndices r₂ q₂ s₂)
    ∧ (∀ (rawLines : List String) (q : String) (osh : Option (List Int)),
        (viewIndices rawLines q osh).Nodup
        ∧ ∀ i ∈ viewIndices rawLines q osh, i < rawLines.length)
    ∧ (∀ (rawLines : List String) (q : String) (osh : Option (List Int)) (i : Nat),
        (normQuery q).isEmpty = false →
        (i ∈ viewIndices rawLines q osh ↔
          i < rawLines.length ∧
            ∃ l r, lowerChars (rawLines.getD i "").toList
                = l ++ normQuery q ++ r))
    ∧ (∀ (rawLines : List String) (q : String), (normQuery q).isEmpty = true →
        viewIndices rawLines q none = List.range rawLines.length) := by
  refine ⟨?_, ?_, ?_, ?_⟩
  · rintro r₁ _ q₁ _ s₁ _ rfl rfl rfl
    rfl
  · exact fun rl q osh => ⟨viewIndices_nodup rl q osh, viewIndices_lt rl q osh⟩
  · intro rl q osh i hq
    rw [mem_viewIndices, mem_baseIndices]
    unfold lineMatches
    rw [hq]
    simp only [Bool.false_or]
    rw [charsSub_iff]
  · intro rl q hq
    rw [viewIndices_none, baseIndices_empty_query rl q hq]

/-- Witness for C2 at concrete inputs. -/
theorem viewOrder_projection_sound_witness :
    (viewIndices ["a"] "" none = viewIndices ["a"] "" none)
    ∧ ((normQuery " CAt ").isEmpty = false
      ∧ (0 ∈ viewIndices ["xCATy", "dog"] " CAt " none ↔
          0 < (["xCATy", "dog"] : List String).length ∧
            ∃ l r, lowerChars ((["xCATy", "dog"] : List String).getD 0 "").toList
                = l ++ normQuery " CAt " ++ r))
    ∧ (((normQuery "")).isEmpty = true
      ∧ viewIndices ["a", "b"] "" none = List.range (["a", "b"] : List String).length) :=
  ⟨viewOrder_projection_sound.1 ["a"] ["a"] "" "" none none rfl rfl rfl,
   ⟨by decide, viewOrder_projection_sound.2.2.1 ["xCATy", "dog"] " CAt " none 0 (by decide)⟩,
   by decide, viewOrder_projection_sound.2.2.2 ["a", "b"] "" (by decide)⟩

/-! ## Lemmas: pagination -/

theorem take_drop_window (l : List α) (s ps : Nat) :
    (l.take (min (s + ps) l.length)).drop (min s l.length) = (l.drop s).take ps := by
  by_cases hs : s ≤ l.length
  · rw [min_eq_left hs, List.drop_take]
    by_cases hsp : s + ps ≤ l.length
    · rw [min_eq_left hsp]
      congr 1
      omega
    · rw [min_eq_right (by omega)]
      refine List.take_eq_take.mpr ?_
      rw [List.length_drop]
      omega
  · rw [min_eq_right (by omega), min_eq_right (by omega), List.take_length,
      List.drop_eq_nil_of_le (Nat.le_refl _), List.drop_eq_nil_of_le (by omega : l.length ≤ s)]
    simp

/-- Claim C3 counterexample: the source clamps the requested page index only
from above (`Math.min`), so a negative requested index is not clamped to 0 as
the claim states: `paginate` of 23 items with page size 10 at requested index
-1 yields `safePageIndex = -1`, not 0. -/
theorem paginate_negative_index_counterexample :
    (paginate (List.range 23) 10 (-1)).safePageIndex = -1
    ∧ decide ((paginate (List.range 23) 10 (-1)).safePageIndex = 0) = false := by
  exact ⟨by decide, by decide⟩

/-- Claim C3 amended: `totalPages` is 0 for the empty list and otherwise
`ceil(length / pageSize)`; `safeIndex` is 0 when `totalPages = 0` and
otherwise `min(requestedIndex, totalPages - 1)` — a non-negative requested
index is thereby clamped into `[0, totalPages-1]`, but a negative requested
index is returned unchanged (no lower clamp); `pageStart = safeIndex *
pageSize`; for non-negative requested indices the page slice is
`items[pageStart .. pageStart + pageSize)`; the function is total (never
throws); the claim's two concrete examples hold. -/
theorem paginate_spec_amended :
    (∀ (α : Type) (items : List α) (ps : Nat) (pgi : Int), 0 < ps →
        (items.length ≤ ps * (paginate items ps pgi).totalPages
          ∧ ps * (paginate items ps pgi).totalPages < items.length + ps)
        ∧ ((paginate items ps pgi).totalPages = 0 ↔ items = [])
        ∧ (0 ≤ pgi → (paginate items ps pgi).safePageIndex
            = if (paginate items ps pgi).totalPages = 0 then 0
              else max 0 (min pgi (((paginate items ps pgi).totalPages : Int) - 1)))
        ∧ (pgi < 0 → (paginate items ps pgi).totalPages ≠ 0 →
            (paginate items ps pgi).safePageIndex = pgi)
        ∧ (paginate items ps pgi).pageStart
            = (paginate items ps pgi).safePageIndex * (ps : Int)
        ∧ (0 ≤ pgi → (paginate items ps pgi).pagedItems
            = (items.drop (paginate items ps pgi).pageStart.toNat).take ps))
    ∧ paginate ([] : List Nat) 10 5 = ⟨0, 0, 0, []⟩
    ∧ paginate (List.range 23) 10 99 = ⟨3, 2, 20, [20, 21, 22]⟩ := by
  refine ⟨?_, by decide, by decide⟩
  intro α items ps pgi hps
  simp only [paginate]
  by_cases hlen : items.length = 0
  · have hnil : items = [] := List.length_eq_zero.mp hlen
    subst hnil
    simp [jsSlice, jsSliceBound, hps]
  · have hlen1 : 0 < items.length := Nat.pos_of_ne_zero hlen
    set len := items.length with hlendef
    set t := (len + ps - 1) / ps with htdef
    have htpos : 0 < t := Nat.div_pos (by omega) hps
    have hup : ps * t ≤ len + ps - 1 := by
      rw [htdef, Nat.mul_comm]
      exact Nat.div_mul_le_self (len + ps - 1) ps
    have hdm := Nat.div_add_mod (len + ps - 1) ps
    rw [← htdef] at hdm
    have hmod : (len + ps - 1) % ps < ps := Nat.mod_lt _ hps
    rw [if_neg hlen]
    refine ⟨⟨by omega, by omega⟩, ?_, ?_, ?_, trivial, ?_⟩
    · constructor
      · intro h
        omega
      · intro h
        rw [h] at hlendef
        simp at hlendef
        omega
    · intro hpi
      rw [if_neg (by omega), if_neg (by omega)]
      omega
    · intro hpi ht
      rw [if_neg (by omega)]
      omega
    · intro hpi
      rw [if_neg (by omega)]
      set spi : Int := min pgi ((t : Int) - 1) with hspidef
      have hspi : 0 ≤ spi := by omega
      have hstart : 0 ≤ spi * (ps : Int) :=
        mul_nonneg hspi (by exact_mod_cast Nat.zero_le ps)
      simp only [jsSlice, jsSliceBound]
      rw [if_neg (by omega), if_neg (by omega)]
      have h2 : (spi * (ps : Int) + (ps : Int)).toNat = (spi * (ps : Int)).toNat + ps := by
        omega
      rw [h2]
      exact take_drop_window items ((spi * (ps : Int)).toNat) ps

/-- Claim C4 (code bug): the spec mandates that in-flight results superseded
by a resource change be discarded on arrival, and the bookmark-load effect
implements exactly that (`cancelled` flag, Provider.tsx lines 282, 292, 334,
411–413), but the text-fetch effect (lines 150–185) has no such flag and
applies `setText` unconditionally.  Trace: viewing resource A, navigate to B,
B's fetch resolves, then A's slow stale fetch resolves — the controller ends
on path B with A's payload as its text.  The bookmark counterpart of the same
trace correctly discards the stale (superseded-generation) result. -/
theorem staleTextFetch_applied_trace :
    (runTrace ⟨"A", "", true, 0, ""⟩
        [.navigate "B", .textResolved "B" "textB", .textResolved "A" "textA"]).path = "B"
    ∧ (runTrace ⟨"A", "", true, 0, ""⟩
        [.navigate "B", .textResolved "B" "textB", .textResolved "A" "textA"]).text
        = "textA"
    ∧ (runTrace ⟨"A", "", true, 0, ""⟩
        [.navigate "B", .bookmarkResolved 0 "staleQuery"]).searchQuery = "" :=
  ⟨rfl, rfl, rfl⟩

/-- Claim C5: the one-time bookmark-to-page reconciliation computes 0 for an
empty view order or missing bookmark word index, and otherwise clamps the
word index into `[0, viewLen-1]`, divides by the page size, and clamps the
result into `[0, totalPages-1]`. -/
theorem initialPage_reconciliation_formula (viewLen : Nat) (bwi : Option Int)
    (ps : Nat) (hps : 0 < ps) :
    initialPageIndex viewLen bwi ps = specReconcilePage viewLen bwi ps := by
  by_cases h0 : viewLen = 0
  · unfold initialPageIndex specReconcilePage
    rw [if_pos h0, if_pos h0]
  · have hlen1 : 0 < viewLen := Nat.pos_of_ne_zero h0
    have htpos : 0 < (viewLen + ps - 1) / ps := Nat.div_pos (by omega) hps
    unfold initialPageIndex specReconcilePage
    rw [if_neg h0, if_neg h0]
    cases bwi with
    | none => rfl
    | some wi =>
      simp only
      have hidx : (if (viewLen : Int) ≤ (if wi < 0 then 0 else wi) then viewLen - 1
          else (if wi < 0 then (0 : Int) else wi).toNat)
          = min (max wi 0).toNat (viewLen - 1) := by
        split_ifs <;> omega
      rw [hidx]
      split_ifs with h <;> omega

/-- Witness for C5 at concrete inputs. -/
theorem initialPage_reconciliation_formula_witness :
    0 < 10 ∧ initialPageIndex 25 (some 17) 10 = specReconcilePage 25 (some 17) 10 :=
  ⟨by decide, initialPage_reconciliation_formula 25 (some 17) 10 (by decide)⟩

/-- Claim C6: once the reconciled flag is true, a run of the initial-page
effect is the identity — no change of view order, bookmark word index or page
size re-runs the bookmark-to-page derivation — and the flag is reset (to
false, together with `bookmarksLoaded`) by the start of a bookmark load
cycle, which is triggered only by a resource-path/identity/load-state
change. -/
theorem reconciliation_once_per_cycle :
    (∀ (st : RecFlags) (viewLen : Nat) (bwi : Option Int) (ps : Nat),
        st.initialPageApplied = true → reconcileTick st viewLen bwi ps = st)
    ∧ (∀ st : RecFlags, (bookmarkCycleStart st).initialPageApplied = false
        ∧ (bookmarkCycleStart st).bookmarksLoaded = false) := by
  constructor
  · intro st v b p h
    simp [reconcileTick, h]
  · intro st
    exact ⟨rfl, rfl⟩

/-- Witness for C6 at a concrete state. -/
theorem reconciliation_once_per_cycle_witness :
    (RecFlags.mk false true true 0).initialPageApplied = true
    ∧ reconcileTick ⟨false, true, true, 0⟩ 7 (some 3) 10 = ⟨false, true, true, 0⟩ :=
  ⟨rfl, reconciliation_once_per_cycle.1 ⟨false, true, true, 0⟩ 7 (some 3) 10 rfl⟩

/-- Witness for C3 at concrete inputs (the claim's 23-item example). -/
theorem paginate_spec_amended_witness :
    0 < 10 ∧ (0 : Int) ≤ 99
    ∧ (paginate (List.range 23) 10 99).pagedItems
        = ((List.range 23).drop (paginate (List.range 23) 10 99).pageStart.toNat).take 10 :=
  ⟨by decide, by decide,
    (paginate_spec_amended.1 Nat (List.range 23) 10 99 (by decide)).2.2.2.2.2 (by decide)⟩

/-! ## Lemmas: the identity-transition save guard -/

theorem saveGuard_first_tick (g : SaveGuard) (ctx : SaveCtx) (pgi : Int) (ps : Nat)
    (h1 : ctx.bookmarksLoaded = true) (h2 : ctx.initialPageApplied = true)
    (h3 : jsTruthyStr ctx.uid = true) (h4 : jsTruthyStr ctx.wordbookPath = true)
    (h5 : g.prevAuthUid = none) :
    savePageBookmarkByIndex g ctx pgi ps = (⟨some ctx.currentUserUid⟩, none) := by
  simp [savePageBookmarkByIndex, h1, h2, h3, h4, h5]

theorem saveGuard_identity_change (g : SaveGuard) (ctx : SaveCtx) (pgi : Int) (ps : Nat)
    (prev : Option String)
    (h1 : ctx.bookmarksLoaded = true) (h2 : ctx.initialPageApplied = true)
    (h3 : jsTruthyStr ctx.uid = true) (h4 : jsTruthyStr ctx.wordbookPath = true)
    (h5 : g.prevAuthUid = some prev) (h6 : prev ≠ ctx.currentUserUid) :
    savePageBookmarkByIndex g ctx pgi ps = (⟨some ctx.currentUserUid⟩, none) := by
  simp [savePageBookmarkByIndex, h1, h2, h3, h4, h5, h6]

theorem saveGuard_unchanged (g : SaveGuard) (ctx : SaveCtx) (pgi : Int) (ps : Nat)
    (h1 : ctx.bookmarksLoaded = true) (h2 : ctx.initialPageApplied = true)
    (h3 : jsTruthyStr ctx.uid = true) (h4 : jsTruthyStr ctx.wordbookPath = true)
    (h5 : g.prevAuthUid = some ctx.currentUserUid) (h6 : ctx.viewLines ≠ []) :
    savePageBookmarkByIndex g ctx pgi ps
      = (g, some ((paginate ctx.viewLines ps pgi).safePageIndex * (ps : Int))) := by
  have h7 : ctx.viewLines.length ≠ 0 := fun h => h6 (List.length_eq_zero.mp h)
  simp [savePageBookmarkByIndex, h1, h2, h3, h4, h5, h7]

/-- Claim C7: on the render tick where the viewer identity differs from the
previously observed one — and on the very first tick, where none has been
observed — `savePageBookmarkByIndex` performs no save and records the new
identity; on the immediately following tick with an unchanged identity it
saves `safePageIndex * pageSize` as the bookmark word index. -/
theorem identity_guard_suppression :
    (∀ (g : SaveGuard) (ctx : SaveCtx) (pgi : Int) (ps : Nat),
        ctx.bookmarksLoaded = true → ctx.initialPageApplied = true →
        jsTruthyStr ctx.uid = true → jsTruthyStr ctx.wordbookPath = true →
        g.prevAuthUid = none →
        savePageBookmarkByIndex g ctx pgi ps = (⟨some ctx.currentUserUid⟩, none))
    ∧ (∀ (g : SaveGuard) (ctx : SaveCtx) (pgi : Int) (ps : Nat) (prev : Option String),
        ctx.bookmarksLoaded = true → ctx.initialPageApplied = true →
        jsTruthyStr ctx.uid = true → jsTruthyStr ctx.wordbookPath = true →
        g.prevAuthUid = some prev → prev ≠ ctx.currentUserUid →
        savePageBookmarkByIndex g ctx pgi ps = (⟨some ctx.currentUserUid⟩, none))
    ∧ (∀ (g : SaveGuard) (ctx : SaveCtx) (pgi : Int) (ps : Nat),
        ctx.bookmarksLoaded = true → ctx.initialPageApplied = true →
        jsTruthyStr ctx.uid = true → jsTruthyStr ctx.wordbookPath = true →
        g.prevAuthUid = some ctx.currentUserUid → ctx.viewLines ≠ [] →
        savePageBookmarkByIndex g ctx pgi ps
          = (g, some ((paginate ctx.viewLines ps pgi).safePageIndex * (ps : Int))))
    ∧ (∀ (g : SaveGuard) (ctx : SaveCtx) (pgi pgi' : Int) (ps ps' : Nat),
        ctx.bookmarksLoaded = true → ctx.initialPageApplied = true →
        jsTruthyStr ctx.uid = true → jsTruthyStr ctx.wordbookPath = true →
        (g.prevAuthUid = none
          ∨ ∃ prev, g.prevAuthUid = some prev ∧ prev ≠ ctx.currentUserUid) →
        ctx.viewLines ≠ [] →
        savePageBookmarkByIndex (savePageBookmarkByIndex g ctx pgi ps).1 ctx pgi' ps'
          = ((savePageBookmarkByIndex g ctx pgi ps).1,
              some ((paginate ctx.viewLines ps' pgi').safePageIndex * (ps' : Int)))) := by
  refine ⟨saveGuard_first_tick, saveGuard_identity_change, saveGuard_unchanged, ?_⟩
  intro g ctx pgi pgi' ps ps' h1 h2 h3 h4 h5 h6
  have hfst : (savePageBookmarkByIndex g ctx pgi ps).1 = ⟨some ctx.currentUserUid⟩ := by
    rcases h5 with h5 | ⟨prev, hp, hne⟩
    · rw [saveGuard_first_tick g ctx pgi ps h1 h2 h3 h4 h5]
    · rw [saveGuard_identity_change g ctx pgi ps prev h1 h2 h3 h4 hp hne]
  rw [hfst]
  exact saveGuard_unchanged ⟨some ctx.currentUserUid⟩ ctx pgi' ps' h1 h2 h3 h4 rfl h6

/-- Witness for C7 at concrete inputs. -/
theorem identity_guard_suppression_witness :
    ((SaveCtx.mk true true (some "u1") (some "p") (some "me") ["w1", "w2"]).bookmarksLoaded = true
      ∧ jsTruthyStr (some "u1") = true
      ∧ (SaveGuard.mk none).prevAuthUid = none
      ∧ savePageBookmarkByIndex ⟨none⟩
          ⟨true, true, some "u1", some "p", some "me", ["w1", "w2"]⟩ 0 10
          = (⟨some (some "me")⟩, none))
    ∧ savePageBookmarkByIndex (savePageBookmarkByIndex ⟨none⟩
          ⟨true, true, some "u1", some "p", some "me", ["w1", "w2"]⟩ 0 10).1
          ⟨true, true, some "u1", some "p", some "me", ["w1", "w2"]⟩ 1 10
        = ((savePageBookmarkByIndex ⟨none⟩
            ⟨true, true, some "u1", some "p", some "me", ["w1", "w2"]⟩ 0 10).1,
           some ((paginate (["w1", "w2"] : List String) 10 1).safePageIndex * (10 : Int))) :=
  ⟨⟨rfl, by decide, rfl,
    identity_guard_suppression.1 ⟨none⟩
      ⟨true, true, some "u1", some "p", some "me", ["w1", "w2"]⟩ 0 10
      rfl rfl (by decide) (by decide) rfl⟩,
   identity_guard_suppression.2.2.2 ⟨none⟩
      ⟨true, true, some "u1", some "p", some "me", ["w1", "w2"]⟩ 0 1 10 10
      rfl rfl (by decide) (by decide) (Or.inl rfl) (by decide)⟩

/-- Claim C8 counterexample: a search change calls `saveBookmark` with
`shuffleWordIndices: null` (Provider.tsx line 534); `saveBookmark` maps that
`null` to `undefined` (`next.shuffleWordIndices ?? undefined`, line 244) and
`stripUndefinedDeep` then removes the key — so the persisted record OMITS
`shuffleWordIndices` instead of storing `null` as the claim states. -/
theorem searchChange_shuffle_omitted_counterexample :
    (stripSaveBookmark
        (mkSaveBookmark "u/p.txt" 1000 ⟨.jval 0, .jval "cat", .jnull⟩ "" (some [1, 2]))
      ).shuffleWordIndices = none
    ∧ decide ((stripSaveBookmark
        (mkSaveBookmark "u/p.txt" 1000 ⟨.jval 0, .jval "cat", .jnull⟩ "" (some [1, 2]))
      ).shuffleWordIndices = some .jnull) = false :=
  ⟨rfl, by decide⟩

/-- Claim C8 amended: no persisted bookmark field ever holds the `undefined`
sentinel, and a shuffle-clear persists `shuffleWordIndices` as the empty
list; but an absent optional `shuffleWordIndices` is OMITTED from the
persisted record (the `null` passed by a search change, and absent in-memory
state, are both mapped to `undefined` and stripped) rather than stored as
`null`; `searchQuery` falls back to the in-memory state string and so is
always present. -/
theorem persisted_bookmark_fields_amended :
    (∀ b : RawSaveBookmark,
        isUndefField (stripSaveBookmark b).searchQuery = false
        ∧ isUndefField (stripSaveBookmark b).shuffleWordIndices = false)
    ∧ (∀ (wp : String) (now : Int) (nwi : JsVal Int) (nsq : JsVal String)
          (stq : String) (sts : Option (List Int)),
        (stripSaveBookmark (mkSaveBookmark wp now ⟨nwi, nsq, .jval []⟩ stq sts)
          ).shuffleWordIndices = some (.jval []))
    ∧ (∀ (wp : String) (now : Int) (nwi : JsVal Int) (nsq : JsVal String)
          (stq : String) (sts : Option (List Int)),
        (stripSaveBookmark (mkSaveBookmark wp now ⟨nwi, nsq, .jnull⟩ stq sts)
          ).shuffleWordIndices = none)
    ∧ (∀ (wp : String) (now : Int) (nwi : JsVal Int) (nsh : JsVal (List Int))
          (stq : String) (sts : Option (List Int)),
        (stripSaveBookmark (mkSaveBookmark wp now ⟨nwi, .jundef, nsh⟩ stq sts)
          ).searchQuery = some (.jval stq))
    ∧ (∀ (wp : String) (now : Int) (nwi : JsVal Int) (nsq : JsVal String)
          (stq : String),
        (stripSaveBookmark (mkSaveBookmark wp now ⟨nwi, nsq, .jundef⟩ stq none)
          ).shuffleWordIndices = none) := by
  refine ⟨?_, fun _ _ _ _ _ _ => rfl, fun _ _ _ _ _ _ => rfl, ?_, fun _ _ _ _ _ => rfl⟩
  · intro b
    constructor
    · cases hsq : b.searchQuery <;> simp [stripSaveBookmark, stripField, hsq, isUndefField]
    · cases hsh : b.shuffleWordIndices <;>
        simp [stripSaveBookmark, stripField, hsh, isUndefField]
  · intro wp now nwi nsh stq sts
    cases nsh <;> rfl

/-! ## Lemmas: RTDB bookmark selection -/

theorem mergeBest_none_right (o : Option (String × RtdbBookmark)) :
    mergeBest o none = o := by
  cases o <;> rfl

theorem mergeBest_assoc (a b c : Option (String × RtdbBookmark)) :
    mergeBest (mergeBest a b) c = mergeBest a (mergeBest b c) := by
  cases a with
  | none => rfl
  | some x =>
    cases b with
    | none => rfl
    | some y =>
      cases c with
      | none => simp [mergeBest_none_right]
      | some z =>
        by_cases h1 : bmVal x.2 < bmVal y.2
        · by_cases h2 : bmVal y.2 < bmVal z.2
          · have h3 : bmVal x.2 < bmVal z.2 := lt_trans h1 h2
            simp [mergeBest, h1, h2, h3]
          · simp [mergeBest, h1, h2]
        · by_cases h2 : bmVal y.2 < bmVal z.2
          · simp [mergeBest, h1, h2]
          · have h3 : ¬ bmVal x.2 < bmVal z.2 := by omega
            simp [mergeBest, h1, h2, h3]

theorem argmaxFirst_cons (kv : String × RtdbBookmark) (l : List (String × RtdbBookmark)) :
    argmaxFirst (kv :: l) = mergeBest (some kv) (argmaxFirst l) := by
  cases h : argmaxFirst l <;> simp [argmaxFirst, mergeBest, h]

theorem pickFold_eq (path : String) :
    ∀ (entries : List (String × Option RtdbBookmark)) (acc : Option (String × RtdbBookmark)),
      entries.foldl (pickStep path) acc = mergeBest acc (argmaxFirst (matchesOf path entries)) := by
  intro entries
  induction entries with
  | nil =>
    intro acc
    simp [matchesOf, argmaxFirst, mergeBest_none_right]
  | cons kv rest ih =>
    intro acc
    rw [List.foldl_cons]
    rcases kv with ⟨key, odata⟩
    cases odata with
    | none =>
      have hstep : pickStep path acc (key, none) = acc := rfl
      have hm : matchesOf path ((key, none) :: rest) = matchesOf path rest := rfl
      rw [hstep, ih, hm]
    | some data =>
      by_cases hp : data.wordbookPath = path
      · have hstep : pickStep path acc (key, some data) = mergeBest acc (some (key, data)) := by
          cases acc <;> simp [pickStep, mergeBest, hp]
        have hm : matchesOf path ((key, some data) :: rest)
            = (key, data) :: matchesOf path rest := by
          simp [matchesOf, hp]
        rw [hstep, ih, hm, argmaxFirst_cons, mergeBest_assoc]
      · have hstep : pickStep path acc (key, some data) = acc := by
          cases acc <;> simp [pickStep, hp]
        have hm : matchesOf path ((key, some data) :: rest) = matchesOf path rest := by
          simp [matchesOf, hp]
        rw [hstep, ih, hm]

theorem argmaxFirst_eq_none (l : List (String × RtdbBookmark)) :
    argmaxFirst l = none → l = [] := by
  cases l with
  | nil => intro _; rfl
  | cons kv rest =>
    intro h
    rw [argmaxFirst_cons] at h
    cases hrec : argmaxFirst rest <;> rw [hrec] at h <;> simp [mergeBest] at h
    split at h <;> simp at h

theorem argmaxFirst_mem : ∀ (l : List (String × RtdbBookmark)) (c : String × RtdbBookmark),
    argmaxFirst l = some c → c ∈ l := by
  intro l
  induction l with
  | nil => intro c h; simp [argmaxFirst] at h
  | cons kv rest ih =>
    intro c h
    rw [argmaxFirst_cons] at h
    cases hrec : argmaxFirst rest with
    | none =>
      rw [hrec] at h
      simp only [mergeBest, Option.some.injEq] at h
      exact h ▸ List.mem_cons_self _ _
    | some b =>
      rw [hrec] at h
      simp only [mergeBest] at h
      split at h
      · simp only [Option.some.injEq] at h
        exact List.mem_cons_of_mem _ (h ▸ ih b hrec)
      · simp only [Option.some.injEq] at h
        exact h ▸ List.mem_cons_self _ _

theorem argmaxFirst_ge : ∀ (l : List (String × RtdbBookmark)) (c : String × RtdbBookmark),
    argmaxFirst l = some c → ∀ m ∈ l, bmVal m.2 ≤ bmVal c.2 := by
  intro l
  induction l with
  | nil => intro c h; simp [argmaxFirst] at h
  | cons kv rest ih =>
    intro c h m hm
    rw [argmaxFirst_cons] at h
    cases hrec : argmaxFirst rest with
    | none =>
      rw [hrec] at h
      simp only [mergeBest, Option.some.injEq] at h
      have hrest : rest = [] := argmaxFirst_eq_none rest hrec
      subst hrest
      rcases List.mem_cons.mp hm with rfl | hm'
      · exact h ▸ le_refl _
      · exact absurd hm' (List.not_mem_nil m)
    | some b =>
      rw [hrec] at h
      simp only [mergeBest] at h
      split at h
      · next hlt =>
        simp only [Option.some.injEq] at h
        subst h
        rcases List.mem_cons.mp hm with rfl | hm'
        · exact le_of_lt hlt
        · exact ih b hrec m hm'
      · next hlt =>
        simp only [Option.some.injEq] at h
        subst h
        rcases List.mem_cons.mp hm with rfl | hm'
        · exact le_refl _
        · exact le_trans (ih b hrec m hm') (not_lt.mp hlt)

theorem mem_matchesOf (path : String) (entries : List (String × Option RtdbBookmark))
    (k : String) (r : RtdbBookmark) (h : (k, r) ∈ matchesOf path entries) :
    r.wordbookPath = path ∧ (k, some r) ∈ entries := by
  obtain ⟨a, ha, hfa⟩ := List.mem_filterMap.mp h
  rcases a with ⟨key, odata⟩
  cases odata with
  | none => simp at hfa
  | some data =>
    simp only at hfa
    split at hfa
    · next hp =>
      simp only [Option.some.injEq, Prod.mk.injEq] at hfa
      obtain ⟨rfl, rfl⟩ := hfa
      exact ⟨hp, ha⟩
    · simp at hfa

/-- Claim C9: the authenticated load reduces the snapshot by filtering on
`wordbookPath` equality and taking the record with the greatest `updatedAt`
(missing treated as 0), keeping the first in iteration order among ties; the
selected record's fields are applied with defaults for missing fields; when
no record matches, defaults are applied and a default record is eagerly
persisted under the freshly allocated key. -/
theorem rtdb_load_picks_latest :
    (∀ (path : String) (entries : List (String × Option RtdbBookmark)),
        pickBest path entries = argmaxFirst (matchesOf path entries))
    ∧ (∀ (path : String) (entries : List (String × Option RtdbBookmark))
          (k : String) (r : RtdbBookmark),
        pickBest path entries = some (k, r) →
        (k, some r) ∈ entries ∧ r.wordbookPath = path
          ∧ ∀ m ∈ matchesOf path entries, bmVal m.2 ≤ bmVal r)
    ∧ (∀ (path : String) (entries : List (String × Option RtdbBookmark))
          (newKey : String) (now : Int),
        pickBest path entries = none →
        rtdbLoadBranch path entries newKey now
          = ⟨some newKey, 0, "", none, some (newKey, defaultStoredBookmark path now)⟩)
    ∧ (∀ (path : String) (entries : List (String × Option RtdbBookmark))
          (newKey : String) (now : Int) (k : String) (r : RtdbBookmark),
        pickBest path entries = some (k, r) →
        rtdbLoadBranch path entries newKey now
          = ⟨some k, r.wordIndex.getD 0, r.searchQuery.getD "", r.shuffleWordIndices, none⟩) := by
  have hpick : ∀ (path : String) (entries : List (String × Option RtdbBookmark)),
      pickBest path entries = argmaxFirst (matchesOf path entries) := by
    intro path entries
    unfold pickBest
    rw [pickFold_eq path entries none]
    rfl
  refine ⟨hpick, ?_, ?_, ?_⟩
  · intro path entries k r h
    rw [hpick] at h
    have hmem := argmaxFirst_mem _ _ h
    have hmatch := mem_matchesOf path entries k r hmem
    exact ⟨hmatch.2, hmatch.1, fun m hm => argmaxFirst_ge _ _ h m hm⟩
  · intro path entries newKey now h
    unfold rtdbLoadBranch
    rw [h]
  · intro path entries newKey now k r h
    unfold rtdbLoadBranch
    rw [h]

/-- Witness for C9 at a concrete snapshot: two records match the path with
equal `updatedAt`; the first in iteration order is selected. -/
theorem rtdb_load_picks_latest_witness :
    pickBest "p" [("k1", some ⟨"p", some 1, some 5, some "a", none⟩),
        ("k2", some ⟨"q", some 2, some 9, none, none⟩),
        ("k3", some ⟨"p", some 3, some 5, none, none⟩)]
      = some ("k1", ⟨"p", some 1, some 5, some "a", none⟩)
    ∧ (("k1", some (⟨"p", some 1, some 5, some "a", none⟩ : RtdbBookmark))
          ∈ [("k1", some (⟨"p", some 1, some 5, some "a", none⟩ : RtdbBookmark)),
              ("k2", some ⟨"q", some 2, some 9, none, none⟩),
              ("k3", some ⟨"p", some 3, some 5, none, none⟩)]
        ∧ (⟨"p", some 1, some 5, some "a", none⟩ : RtdbBookmark).wordbookPath = "p"
        ∧ ∀ m ∈ matchesOf "p" [("k1", some ⟨"p", some 1, some 5, some "a", none⟩),
              ("k2", some ⟨"q", some 2, some 9, none, none⟩),
              ("k3", some ⟨"p", some 3, some 5, none, none⟩)],
            bmVal m.2 ≤ bmVal ⟨"p", some 1, some 5, some "a", none⟩) :=
  ⟨by decide,
   rtdb_load_picks_latest.2.1 "p"
     [("k1", some ⟨"p", some 1, some 5, some "a", none⟩),
      ("k2", some ⟨"q", some 2, some 9, none, none⟩),
      ("k3", some ⟨"p", some 3, some 5, none, none⟩)]
     "k1" ⟨"p", some 1, some 5, some "a", none⟩ (by decide)⟩

/-- Claim C10 counterexample: `assertGuestOnly` checks JS truthiness
(`if (currentUserUid)`), not null-ness, so a non-null empty-string
`currentUserUid` does NOT make the operation throw — `idbGetBookmark` with
`some ""` succeeds (and runs the schema-tag check) instead of erroring as the
claim states for every non-null uid. -/
theorem idb_guard_empty_uid_counterexample :
    idbGetBookmark ⟨[], none⟩ "u/p.txt" (some "")
      = .ok (⟨[], some schemaTagConst⟩, none)
    ∧ (idbGetBookmark ⟨[], none⟩ "u/p.txt" (some "")).isOk = true :=
  ⟨rfl, rfl⟩

/-- Claim C10 amended: every guest-only IndexedDB bookmark operation throws
the guest-only error when `currentUserUid` is truthy (non-null AND
non-empty), before touching the database state; an empty-string uid is
treated like a guest; with a null uid each operation proceeds: get runs the
schema-tag check and looks the record up by path, set stores the stripped
record under its `wordbookPath` key, delete removes the record, clear empties
the store. -/
theorem idb_guest_guard_amended :
    (∀ (st : IdbState) (path : String) (bm : RawSaveBookmark) (u : String),
        u ≠ "" →
        idbGetBookmark st path (some u) = .error guestGuardMsg
        ∧ idbSetBookmark st bm (some u) = .error guestGuardMsg
        ∧ idbDeleteBookmark st path (some u) = .error guestGuardMsg
        ∧ idbClearAllBookmarks st (some u) = .error guestGuardMsg)
    ∧ (∀ (st : IdbState) (path : String) (bm : RawSaveBookmark),
        idbGetBookmark st path (some "") = idbGetBookmark st path none
        ∧ idbSetBookmark st bm (some "") = idbSetBookmark st bm none
        ∧ idbDeleteBookmark st path (some "") = idbDeleteBookmark st path none
        ∧ idbClearAllBookmarks st (some "") = idbClearAllBookmarks st none)
    ∧ (∀ (st : IdbState) (path : String) (bm : RawSaveBookmark),
        idbGetBookmark st path none
          = .ok (ensureSchemaTag st,
              ((ensureSchemaTag st).bookmarks.find? (fun kv => kv.1 = path)).map
                (fun kv => kv.2))
        ∧ idbSetBookmark st bm none
          = .ok { ensureSchemaTag st with
              bookmarks := putRecord (ensureSchemaTag st).bookmarks
                (stripSaveBookmark bm).wordbookPath (stripSaveBookmark bm) }
        ∧ idbDeleteBookmark st path none
          = .ok { ensureSchemaTag st with
              bookmarks := (ensureSchemaTag st).bookmarks.filter (fun kv => kv.1 ≠ path) }
        ∧ idbClearAllBookmarks st none
          = .ok { ensureSchemaTag st with bookmarks := [] }) := by
  refine ⟨?_, ?_, ?_⟩
  · intro st path bm u hu
    have ht : jsTruthyStr (some u) = true := by
      have : u.isEmpty = false := by
        rw [Bool.eq_false_iff]
        intro he
        exact hu ((String.isEmpty_iff u).mp he)
      simp [jsTruthyStr, this]
    refine ⟨?_, ?_, ?_, ?_⟩ <;>
      simp [idbGetBookmark, idbSetBookmark, idbDeleteBookmark, idbClearAllBookmarks, ht]
  · intro st path bm
    exact ⟨rfl, rfl, rfl, rfl⟩
  · intro st path bm
    exact ⟨rfl, rfl, rfl, rfl⟩

/-- Witness for C10 at concrete inputs. -/
theorem idb_guest_guard_amended_witness :
    ("u1" : String) ≠ ""
    ∧ (idbGetBookmark ⟨[], none⟩ "p" (some "u1") = .error guestGuardMsg
        ∧ idbSetBookmark ⟨[], none⟩
            ⟨"p", 0, 0, .jval "", .jundef⟩ (some "u1") = .error guestGuardMsg
        ∧ idbDeleteBookmark ⟨[], none⟩ "p" (some "u1") = .error guestGuardMsg
        ∧ idbClearAllBookmarks ⟨[], none⟩ (some "u1") = .error guestGuardMsg) :=
  ⟨by decide,
   idb_guest_guard_amended.1 ⟨[], none⟩ "p" ⟨"p", 0, 0, .jval "", .jundef⟩ "u1" (by decide)⟩

end VocaSpec


